import Mathlib

/-!
Shallow embedding of the original logic of the mirad-work/sms-nestjs
repository: the batched bulk dispatcher `SmsService.verifyBulk`, the retry
helper `NotificationService.sendOtpWithRetry`, and the fallback helper
`NotificationService.sendWithFallback`, together with the small pieces of the
JavaScript runtime they rely on (`Promise.all`, the `||` operator on strings).

Asynchrony is embedded denotationally: each send is an already-determined
`Except` value, and the only observable effect of completion order — which
rejection wins a `Promise.all` — is captured by an explicit completion-order
parameter.  The embeddings are instrumented: alongside the returned value they
expose the trace of launched sends (for the bulk dispatcher), the number of
invocations and the list of backoff delays (for the retry helper), and the
drivers actually sent to (for the fallback helper).
-/

/-- A thrown error as observed by the catch blocks of the services: the
human-readable message, and the code carried when the thrown value is an
`SmsException` (`none` for any other thrown value, matching the
`error instanceof SmsException` checks in the source). -/
structure SmsError where
  message : String
  code : Option String
  deriving DecidableEq, Repr

/-- `ISmsResponse`: outcome of one send as returned (not thrown) by the send
capability, or synthesized by the dispatch helpers. -/
structure SmsResponse where
  success : Bool
  messageId : Option String := none
  error : Option String := none
  errorCode : Option String := none
  deriving DecidableEq, Repr

/-- JavaScript `x || y` where `x` is a possibly-undefined string: `undefined`
and the empty string are falsy, every other string is truthy. -/
def jsOr (x : Option String) (y : String) : String :=
  match x with
  | some s => if s = "" then y else s
  | none => y

/-- `Promise.all` over a list of already-settled task outcomes.  When every
task resolves it resolves with the values in input order; otherwise it rejects
with the first rejection in completion order.  `order` lists task positions in
completion order; positions it omits are appended in input order, so every
rejection is reachable regardless of how `order` was chosen. -/
def promiseAll {E A : Type} (order : List Nat) (tasks : List (Except E A)) :
    Except E (List A) :=
  match ((order ++ List.range tasks.length).filterMap fun j =>
      match tasks[j]? with
      | some (Except.error e) => some e
      | _ => none).head? with
  | some e => Except.error e
  | none => Except.ok (tasks.filterMap Except.toOption)

/-- The async closure built for one message of a batch by
`SmsService.verifyBulk` (src/unnamed/part_004, lines 232-250): on a resolved
response it returns the response tagged with its global index; on a thrown
error it builds the error response, rethrows when `failFast` is set, and
otherwise returns the error response tagged with the global index. -/
def bulkTask {M : Type} (send : M → Except SmsError SmsResponse)
    (failFast : Bool) (index : Nat) (message : M) :
    Except SmsError (Nat × SmsResponse) :=
  match send message with
  | Except.ok response => Except.ok (index, response)
  | Except.error e =>
    let errorResponse : SmsResponse :=
      { success := false, error := some e.message,
        errorCode := some (e.code.getD "UNKNOWN_ERROR") }
    if failFast then Except.error e
    else Except.ok (index, errorResponse)

/-- The response recorded for one message by `verifyBulk` in non-fail-fast
mode, and by extension the outcome the claims compare result slots against: a
resolved response is kept as is, a thrown error becomes
`{success: false, error: message, errorCode: code orelse "UNKNOWN_ERROR"}`. -/
def sendOutcome {M : Type} (send : M → Except SmsError SmsResponse)
    (message : M) : SmsResponse :=
  match send message with
  | Except.ok response => response
  | Except.error e =>
    { success := false, error := some e.message,
      errorCode := some (e.code.getD "UNKNOWN_ERROR") }

/-- The batch loop of `SmsService.verifyBulk` (src/unnamed/part_004, lines
229-264).  `i` is the loop counter (base index of the current batch), `msgs`
the remaining messages, `results` the result array (modelled as a fixed-length
array of options; every in-range JavaScript index assignment is a `List.set`).
Alongside the outcome it returns the trace of launched global indices, one
list per started batch — the whole batch is launched before its `Promise.all`
is awaited, and a later batch is reached only after that await returns.
The `concurrency = 0` case loops forever in the source (`i += 0`); it is
modelled as an error and exercised by no claim, all of which assume a
positive concurrency. -/
def verifyBulkGo {M : Type} (send : M → Except SmsError SmsResponse)
    (failFast : Bool) (orders : Nat → List Nat) :
    Nat → Nat → List M → List (Option SmsResponse) →
      Except SmsError (List (Option SmsResponse)) × List (List Nat)
  | _, _, [], results => (Except.ok results, [])
  | 0, _, _ :: _, _ =>
    (Except.error { message := "loop does not terminate", code := none }, [])
  | c + 1, i, m :: rest, results =>
    let batch := (m :: rest).take (c + 1)
    let batchTasks := batch.enum.map fun p => bulkTask send failFast (i + p.1) p.2
    let launched := batch.enum.map fun p => i + p.1
    match promiseAll (orders i) batchTasks with
    | Except.ok batchResults =>
      let next := verifyBulkGo send failFast orders (c + 1) (i + (c + 1))
        (rest.drop c) (batchResults.foldl (fun acc q => acc.set q.1 (some q.2)) results)
      (next.1, launched :: next.2)
    | Except.error e =>
      if failFast then (Except.error e, [launched])
      else
        let next := verifyBulkGo send failFast orders (c + 1) (i + (c + 1))
          (rest.drop c) results
        (next.1, launched :: next.2)
termination_by _ _ msgs _ => msgs.length
decreasing_by
  all_goals
    simp only [List.length_drop, List.length_cons]
    omega

/-- `SmsService.verifyBulk` (src/unnamed/part_004, lines 213-272), with the
send capability (`this.verify`) abstracted as a function from messages to
settled outcomes and the per-batch completion order abstracted as `orders`
(indexed by the batch's base index).  Source defaults: `concurrency = 5`,
`failFast = false`. -/
def verifyBulk {M : Type} (send : M → Except SmsError SmsResponse)
    (messages : List M) (concurrency : Nat) (failFast : Bool)
    (orders : Nat → List Nat) :
    Except SmsError (List (Option SmsResponse)) × List (List Nat) :=
  verifyBulkGo send failFast orders concurrency 0 messages
    (List.replicate messages.length none)

/-- Spec-side description of the batching ("partitions messages into
consecutive batches of size concurrency, the last batch may be smaller"),
written from the spec's words to compare the dispatcher's launch trace
against.  Positive chunk size is assumed by the spec; size 0 yields no
chunks here and is used by no claim. -/
def chunkList {A : Type} : Nat → List A → List (List A)
  | _, [] => []
  | 0, _ :: _ => []
  | c + 1, m :: rest => ((m :: rest).take (c + 1)) :: chunkList (c + 1) (rest.drop c)
termination_by _ l => l.length
decreasing_by
  all_goals
    simp only [List.length_drop, List.length_cons]
    omega

/-- The retry loop of `NotificationService.sendOtpWithRetry`
(src/unnamed/part_000, lines 161-192).  `send` gives the settled outcome of
the attempt-numbered invocation of `smsService.verify`; the pair returned
beside the outcome counts the invocations made and lists the backoff delays
(in ms) actually awaited.  Both the `response.success` branch and the
provider-rejection branch return the response immediately, as in the source. -/
def retryGo (send : Nat → Except SmsError SmsResponse) (maxRetries : Nat) :
    Nat → Option SmsError → Nat → List Nat →
      Except SmsError SmsResponse × Nat × List Nat
  | attempt, lastError, invocations, delays =>
    if attempt ≤ maxRetries then
      match send attempt with
      | Except.ok response =>
        if response.success then (Except.ok response, invocations + 1, delays)
        else (Except.ok response, invocations + 1, delays)
      | Except.error e =>
        retryGo send maxRetries (attempt + 1) (some e) (invocations + 1)
          (if attempt < maxRetries then delays ++ [2 ^ attempt * 1000] else delays)
    else
      (Except.error
        (lastError.getD { message := "All retry attempts failed", code := none }),
        invocations, delays)
termination_by attempt _ _ _ => maxRetries + 1 - attempt
decreasing_by omega

/-- `NotificationService.sendOtpWithRetry` (src/unnamed/part_000, lines
153-193): attempts run from 1 to `maxRetries` (source default 3); a returned
response — successful or not — is returned immediately; a thrown error is
recorded and, when attempts remain, followed by a `2 ^ attempt * 1000` ms
backoff; after the last attempt the recorded error is rethrown. -/
def sendOtpWithRetry (send : Nat → Except SmsError SmsResponse)
    (maxRetries : Nat) : Except SmsError SmsResponse × Nat × List Nat :=
  retryGo send maxRetries 1 none 0 []

/-- The queries `NotificationService` makes of the injected `SmsService`,
with the send capability keyed by the driver placed in the message (the other
message fields are fixed throughout one `sendWithFallback` call). -/
structure SmsEnv where
  defaultDriver : String
  availableDrivers : List String
  isAvailable : String → Bool
  send : String → Except SmsError SmsResponse

/-- `NotificationService.getAlternativeDriver` (src/unnamed/part_000, lines
248-252): the first available driver different from the current one, or the
mock driver identifier when none exists (`alternatives[0] || DriverType.MOCK`,
so an empty-string head is also replaced by "mock"). -/
def getAlternativeDriver (env : SmsEnv) (currentDriver : Option String) :
    String :=
  let alternatives :=
    env.availableDrivers.filter fun d => decide (some d ≠ currentDriver)
  jsOr alternatives.head? "mock"

/-- The candidate driver list built by `NotificationService.sendWithFallback`
(src/unnamed/part_000, lines 205-208): `[primary || default, fallback ||
alternative]` filtered by JavaScript truthiness (`.filter(Boolean)`, which on
strings removes exactly the empty string). -/
def fallbackCandidates (env : SmsEnv)
    (primaryDriver fallbackDriver : Option String) : List String :=
  [jsOr primaryDriver env.defaultDriver,
    jsOr fallbackDriver (getAlternativeDriver env primaryDriver)].filter
    fun d => decide (d ≠ "")

/-- The driver loop of `NotificationService.sendWithFallback`
(src/unnamed/part_000, lines 210-245): skip unavailable drivers, return the
first successful response, remember the last unsuccessful response, swallow
thrown errors, and at exhaustion return the remembered response or the
synthetic all-failed response.  Beside the response it returns the trace of
drivers for which the send capability was actually invoked. -/
def fallbackGo (env : SmsEnv) :
    List String → Option SmsResponse → List String → SmsResponse × List String
  | [], lastResponse, attempted =>
    (lastResponse.getD
      { success := false, error := some "All drivers failed or unavailable" },
      attempted)
  | driver :: rest, lastResponse, attempted =>
    if env.isAvailable driver = false then fallbackGo env rest lastResponse attempted
    else
      match env.send driver with
      | Except.ok response =>
        if response.success then (response, attempted ++ [driver])
        else fallbackGo env rest (some response) (attempted ++ [driver])
      | Except.error _ => fallbackGo env rest lastResponse (attempted ++ [driver])

/-- The synthetic response built at exhaustion by
`NotificationService.sendWithFallback` (src/unnamed/part_000, lines 242-245),
named here for use in statements. -/
def allFailedResponse : SmsResponse :=
  { success := false, error := some "All drivers failed or unavailable" }

/-- `NotificationService.sendWithFallback` (src/unnamed/part_000, lines
198-246). -/
def sendWithFallback (env : SmsEnv)
    (primaryDriver fallbackDriver : Option String) :
    SmsResponse × List String :=
  fallbackGo env (fallbackCandidates env primaryDriver fallbackDriver) none []

/-- Concrete send capability for exercising the theorems on small inputs:
message 1 throws an SmsException carrying code E1, every other message
resolves successfully. -/
def sendW : Nat → Except SmsError SmsResponse := fun m =>
  if m = 1 then Except.error { message := "boom", code := some "E1" }
  else Except.ok { success := true, messageId := some "id42" }

/-- A thrown transport error with no SmsException code. -/
def errW : SmsError := { message := "netfail", code := none }

/-- An attempt-indexed capability that throws on every attempt. -/
def sendThrowW : Nat → Except SmsError SmsResponse := fun _ => Except.error errW

/-- An attempt-indexed capability whose provider rejects every message
(returned, not thrown). -/
def sendRejectW : Nat → Except SmsError SmsResponse := fun _ =>
  Except.ok { success := false, error := some "rejected" }

/-- Environment where every driver is available but every send is rejected
by the provider. -/
def envFailW : SmsEnv :=
  { defaultDriver := "kavenegar"
    availableDrivers := ["kavenegar", "smsir"]
    isAvailable := fun _ => true
    send := fun d => Except.ok { success := false, error := some ("no " ++ d) } }

/-- Environment where no driver is available. -/
def envDownW : SmsEnv :=
  { defaultDriver := "kavenegar"
    availableDrivers := []
    isAvailable := fun _ => false
    send := fun _ => Except.ok { success := true } }

/-- An attempt-indexed capability that throws on attempts 1 and 2 and
resolves successfully from attempt 3 on. -/
def sendLateW : Nat → Except SmsError SmsResponse := fun a =>
  if a < 3 then Except.error { message := "tmp", code := none }
  else Except.ok { success := true, messageId := some "late" }

/-- Environment where the first candidate is available and rejects and the
second candidate is available and throws. -/
def envMixW : SmsEnv :=
  { defaultDriver := "kavenegar"
    availableDrivers := ["kavenegar", "smsir"]
    isAvailable := fun _ => true
    send := fun d =>
      if d = "kavenegar" then Except.ok { success := false, error := some "declined" }
      else Except.error { message := "timeout", code := none } }

/-- Spec-side description of the "last-seen failing SendResult actually
obtained": walking the candidates in order, an unavailable candidate and a
throwing candidate leave the remembered response unchanged, and a returned
response replaces it.  Compared below against the driver loop of
sendWithFallback on the runs where no candidate succeeds. -/
def lastObtained (env : SmsEnv) (l : List String)
    (acc : Option SmsResponse) : Option SmsResponse :=
  l.foldl (fun acc d =>
    if env.isAvailable d = false then acc
    else
      match env.send d with
      | Except.ok r => some r
      | Except.error _ => acc) acc

/-! ## Helper lemmas -/

theorem foldl_set_length (pairs : List (Nat × SmsResponse)) :
    ∀ results : List (Option SmsResponse),
      (pairs.foldl (fun acc q => acc.set q.1 (some q.2)) results).length =
        results.length := by
  induction pairs with
  | nil => intro results; rfl
  | cons p t ih =>
    intro results
    simp only [List.foldl_cons, ih, List.length_set]

theorem promiseAll_all_ok {E A : Type} (order : List Nat)
    (tasks : List (Except E A)) (h : ∀ t ∈ tasks, ∃ a, t = Except.ok a) :
    promiseAll order tasks = Except.ok (tasks.filterMap Except.toOption) := by
  unfold promiseAll
  have hfm : ((order ++ List.range tasks.length).filterMap fun j =>
      match tasks[j]? with
      | some (Except.error e) => some e
      | _ => none) = [] := by
    apply List.filterMap_eq_nil_iff.mpr
    intro j _
    cases hj : tasks[j]? with
    | none => simp
    | some t =>
      have hmem : t ∈ tasks := by
        obtain ⟨hlt, hget⟩ := List.getElem?_eq_some.mp hj
        exact hget ▸ List.getElem_mem hlt
      obtain ⟨a, ha⟩ := h t hmem
      subst ha
      simp
  rw [hfm]
  rfl

theorem filterMap_toOption_map_ok {E A B : Type} (l : List B) (f : B → A) :
    (l.map fun x => (Except.ok (f x) : Except E A)).filterMap Except.toOption =
      l.map f := by
  induction l with
  | nil => rfl
  | cons a t ih => simp only [List.map_cons, List.filterMap_cons, Except.toOption, ih]

theorem promiseAll_unique_error {E A : Type} (order : List Nat)
    (tasks : List (Except E A)) (p : Nat) (e : E)
    (hp : tasks[p]? = some (Except.error e))
    (hother : ∀ j t, j ≠ p → tasks[j]? = some t → ∃ a, t = Except.ok a) :
    promiseAll order tasks = Except.error e := by
  unfold promiseAll
  have hall : ∀ x ∈ ((order ++ List.range tasks.length).filterMap fun j =>
      match tasks[j]? with
      | some (Except.error e) => some e
      | _ => none), x = e := by
    intro x hx
    obtain ⟨j, _, hj⟩ := List.mem_filterMap.mp hx
    cases hjt : tasks[j]? with
    | none => rw [hjt] at hj; simp at hj
    | some t =>
      cases t with
      | ok a => rw [hjt] at hj; simp at hj
      | error e2 =>
        rw [hjt] at hj
        simp only [Option.some.injEq] at hj
        by_cases hjp : j = p
        · subst hjp
          rw [hjt] at hp
          simp only [Option.some.injEq, Except.error.injEq] at hp
          exact hj ▸ hp
        · obtain ⟨a, ha⟩ := hother j (Except.error e2) hjp hjt
          simp at ha
  have hmem : e ∈ ((order ++ List.range tasks.length).filterMap fun j =>
      match tasks[j]? with
      | some (Except.error e) => some e
      | _ => none) := by
    apply List.mem_filterMap.mpr
    refine ⟨p, ?_, by rw [hp]⟩
    apply List.mem_append_right
    apply List.mem_range.mpr
    exact (List.getElem?_eq_some.mp hp).1
  cases hL : ((order ++ List.range tasks.length).filterMap fun j =>
      match tasks[j]? with
      | some (Except.error e) => some e
      | _ => none) with
  | nil => rw [hL] at hmem; simp at hmem
  | cons a t =>
    rw [hL] at hall
    have : a = e := hall a (List.mem_cons_self a t)
    subst this
    rfl

theorem bulkTask_ok {M : Type} (send : M → Except SmsError SmsResponse)
    (failFast : Bool) (idx : Nat) (m : M)
    (h : failFast = true → ∃ r, send m = Except.ok r) :
    bulkTask send failFast idx m = Except.ok (idx, sendOutcome send m) := by
  unfold bulkTask sendOutcome
  cases hs : send m with
  | ok r => rfl
  | error e =>
    cases failFast with
    | false => rfl
    | true =>
      obtain ⟨r, hr⟩ := h rfl
      rw [hs] at hr
      simp at hr

theorem enumFrom_map_idx {M : Type} (l : List M) :
    ∀ (k i : Nat), (l.enumFrom k).map (fun p => i + p.1) =
      List.range' (i + k) l.length := by
  induction l with
  | nil => intro k i; rfl
  | cons m t ih =>
    intro k i
    simp only [List.enumFrom_cons, List.map_cons, List.length_cons,
      List.range'_succ, ih (k + 1) i]
    all_goals rfl

theorem range'_take : ∀ (k s n : Nat),
    (List.range' s n).take k = List.range' s (min k n) := by
  intro k
  induction k with
  | zero => intro s n; simp
  | succ k ih =>
    intro s n
    cases n with
    | zero => simp
    | succ n =>
      rw [List.range'_succ, List.take_succ_cons, ih (s + 1) n,
        Nat.succ_min_succ, List.range'_succ]

theorem range'_drop : ∀ (k s n : Nat),
    (List.range' s n).drop k = List.range' (s + k) (n - k) := by
  intro k
  induction k with
  | zero => intro s n; simp
  | succ k ih =>
    intro s n
    cases n with
    | zero => simp
    | succ n =>
      rw [List.range'_succ, List.drop_succ_cons, ih (s + 1) n,
        Nat.succ_sub_succ]
      congr 1
      omega

theorem chunkList_range' (c : Nat) (n i : Nat) (hn : 0 < n) :
    chunkList (c + 1) (List.range' i n) =
      List.range' i (min (c + 1) n) ::
        chunkList (c + 1) (List.range' (i + (c + 1)) (n - (c + 1))) := by
  cases n with
  | zero => omega
  | succ n =>
    rw [List.range'_succ]
    rw [chunkList]
    congr 1
    · rw [← List.range'_succ, range'_take]
    · rw [range'_drop]
      have h1 : i + 1 + c = i + (c + 1) := by omega
      have h2 : n - c = n + 1 - (c + 1) := by omega
      rw [h1, h2]

theorem chunkList_flatten {A : Type} (c : Nat) (l : List A) (hc : 0 < c) :
    (chunkList c l).flatten = l := by
  induction c, l using chunkList.induct with
  | case1 x => simp [chunkList]
  | case2 m rest => omega
  | case3 c m rest ih =>
    rw [chunkList, List.flatten_cons, ih (by omega), ← List.drop_succ_cons,
      List.take_append_drop]

theorem foldWrite_spec {M : Type} (g : M → SmsResponse) (i : Nat) :
    ∀ (l : List M) (k : Nat) (results : List (Option SmsResponse)),
      i + k + l.length ≤ results.length →
      ∀ j, (((l.enumFrom k).map fun p => (i + p.1, g p.2)).foldl
          (fun acc q => acc.set q.1 (some q.2)) results)[j]? =
        if i + k ≤ j ∧ j < i + k + l.length
        then (l[j - (i + k)]?).map fun m => some (g m)
        else results[j]? := by
  intro l
  induction l with
  | nil =>
    intro k results _ j
    simp only [List.enumFrom_nil, List.map_nil, List.foldl_nil, List.length_nil]
    rw [if_neg (by omega)]
  | cons m t ih =>
    intro k results hb j
    simp only [List.enumFrom_cons, List.map_cons, List.foldl_cons,
      List.length_cons] at hb ⊢
    have hb' : i + (k + 1) + t.length ≤
        (results.set (i + k) (some (g m))).length := by
      simp only [List.length_set]; omega
    rw [ih (k + 1) (results.set (i + k) (some (g m))) hb' j,
      List.getElem?_set]
    by_cases h1 : j = i + k
    · subst h1
      rw [if_neg (by omega), if_pos (by omega), if_pos (by omega),
        if_pos (by omega)]
      have h0 : i + k - (i + k) = 0 := by omega
      rw [h0, List.getElem?_cons_zero]
      simp
    · by_cases h2 : i + k ≤ j ∧ j < i + k + (t.length + 1)
      · rw [if_pos (by omega), if_pos h2]
        have hd : j - (i + k) = (j - (i + (k + 1))) + 1 := by omega
        rw [hd, List.getElem?_cons_succ]
      · rw [if_neg (by omega), if_neg h2, if_neg (by omega)]

theorem verifyBulkGo_cons {M : Type} (send : M → Except SmsError SmsResponse)
    (failFast : Bool) (orders : Nat → List Nat) (c i : Nat) (m : M)
    (rest : List M) (results : List (Option SmsResponse)) :
    verifyBulkGo send failFast orders (c + 1) i (m :: rest) results =
      match promiseAll (orders i)
          (((m :: rest).take (c + 1)).enum.map fun p =>
            bulkTask send failFast (i + p.1) p.2) with
      | Except.ok batchResults =>
        ((verifyBulkGo send failFast orders (c + 1) (i + (c + 1)) (rest.drop c)
            (batchResults.foldl (fun acc q => acc.set q.1 (some q.2)) results)).1,
          (((m :: rest).take (c + 1)).enum.map fun p => i + p.1) ::
            (verifyBulkGo send failFast orders (c + 1) (i + (c + 1)) (rest.drop c)
              (batchResults.foldl (fun acc q => acc.set q.1 (some q.2)) results)).2)
      | Except.error e =>
        if failFast then
          (Except.error e, [((m :: rest).take (c + 1)).enum.map fun p => i + p.1])
        else
          ((verifyBulkGo send failFast orders (c + 1) (i + (c + 1)) (rest.drop c)
              results).1,
            (((m :: rest).take (c + 1)).enum.map fun p => i + p.1) ::
              (verifyBulkGo send failFast orders (c + 1) (i + (c + 1)) (rest.drop c)
                results).2) := by
  rw [verifyBulkGo]

theorem verifyBulkGo_ok_spec {M : Type} (send : M → Except SmsError SmsResponse)
    (failFast : Bool) (orders : Nat → List Nat) (c : Nat) :
    ∀ (n : Nat) (msgs : List M), msgs.length = n →
      ∀ (i : Nat) (results : List (Option SmsResponse)),
        (∀ m ∈ msgs, failFast = true → ∃ r, send m = Except.ok r) →
        (msgs = [] ∨ i + msgs.length ≤ results.length) →
        ∃ final,
          verifyBulkGo send failFast orders (c + 1) i msgs results =
            (Except.ok final, chunkList (c + 1) (List.range' i msgs.length)) ∧
          final.length = results.length ∧
          ∀ j, final[j]? =
            if i ≤ j ∧ j < i + msgs.length
            then (msgs[j - i]?).map fun m => some (sendOutcome send m)
            else results[j]? := by
  intro n
  induction n using Nat.strong_induction_on with
  | _ n ihn =>
  intro msgs hlen i results hok hbound
  cases msgs with
  | nil =>
    refine ⟨results, by simp [verifyBulkGo, chunkList], rfl, ?_⟩
    intro j
    simp only [List.length_nil]
    rw [if_neg (by omega)]
  | cons m rest =>
    have hbnd : i + (m :: rest).length ≤ results.length := by
      cases hbound with
      | inl h => exact absurd h (by simp)
      | inr h => exact h
    simp only [List.length_cons] at hbnd
    -- the batch tasks all resolve
    have hTasks : ((m :: rest).take (c + 1)).enum.map
          (fun p => bulkTask send failFast (i + p.1) p.2) =
        ((m :: rest).take (c + 1)).enum.map
          (fun p => Except.ok (i + p.1, sendOutcome send p.2)) := by
      apply List.map_congr_left
      intro p hp
      exact bulkTask_ok send failFast _ _
        (hok p.2 (List.take_subset _ _ (List.snd_mem_of_mem_enum hp)))
    have hallok : ∀ t ∈ ((m :: rest).take (c + 1)).enum.map
        (fun p => (Except.ok (i + p.1, sendOutcome send p.2) :
          Except SmsError (Nat × SmsResponse))), ∃ a, t = Except.ok a := by
      intro t ht
      obtain ⟨p, hp, rfl⟩ := List.mem_map.mp ht
      exact ⟨_, rfl⟩
    have hpa : promiseAll (orders i) (((m :: rest).take (c + 1)).enum.map
          fun p => bulkTask send failFast (i + p.1) p.2) =
        Except.ok (((m :: rest).take (c + 1)).enum.map
          fun p => (i + p.1, sendOutcome send p.2)) := by
      rw [hTasks, promiseAll_all_ok _ _ hallok,
        filterMap_toOption_map_ok (((m :: rest).take (c + 1)).enum)
          (fun p => (i + p.1, sendOutcome send p.2))]
    -- the written result array
    have hres : ∀ j, ((((m :: rest).take (c + 1)).enum.map
          (fun p => (i + p.1, sendOutcome send p.2))).foldl
          (fun acc q => acc.set q.1 (some q.2)) results)[j]? =
        if i ≤ j ∧ j < i + ((m :: rest).take (c + 1)).length
        then ((((m :: rest).take (c + 1))[j - i]?).map
          fun x => some (sendOutcome send x))
        else results[j]? := by
      have hb0 : i + 0 + ((m :: rest).take (c + 1)).length ≤ results.length := by
        simp only [List.length_take, List.length_cons]
        omega
      have := foldWrite_spec (sendOutcome send) i ((m :: rest).take (c + 1))
        0 results hb0
      simpa using this
    have hlenw : ((((m :: rest).take (c + 1)).enum.map
          (fun p => (i + p.1, sendOutcome send p.2))).foldl
          (fun acc q => acc.set q.1 (some q.2)) results).length =
        results.length := foldl_set_length _ _
    -- recursive call on the remaining messages
    have hok2 : ∀ x ∈ rest.drop c, failFast = true → ∃ r, send x = Except.ok r := by
      intro x hx
      exact hok x (List.mem_cons_of_mem m (List.drop_subset _ _ hx))
    have hbound2 : rest.drop c = [] ∨ (i + (c + 1)) + (rest.drop c).length ≤
        ((((m :: rest).take (c + 1)).enum.map
          (fun p => (i + p.1, sendOutcome send p.2))).foldl
          (fun acc q => acc.set q.1 (some q.2)) results).length := by
      by_cases hre : rest.drop c = []
      · exact Or.inl hre
      · refine Or.inr ?_
        rw [hlenw]
        have : rest.length > c := by
          by_contra hcon
          exact hre (List.drop_eq_nil_of_le (by omega))
        simp only [List.length_drop]
        omega
    obtain ⟨final, hfeq, hflen, hfget⟩ := ihn (rest.drop c).length
      (by simp only [List.length_drop, ← hlen, List.length_cons]; omega)
      (rest.drop c) rfl (i + (c + 1)) _ hok2 hbound2
    refine ⟨final, ?_, by rw [hflen, hlenw], ?_⟩
    · -- the run and its trace
      rw [verifyBulkGo_cons, hpa]
      simp only [hfeq]
      have hlaunch : (((m :: rest).take (c + 1)).enum.map fun p => i + p.1) =
          List.range' i (min (c + 1) (rest.length + 1)) := by
        have h := enumFrom_map_idx ((m :: rest).take (c + 1)) 0 i
        rw [Nat.add_zero, List.length_take, List.length_cons] at h
        exact h
      rw [hlaunch, chunkList_range' c ((m :: rest).length) i (by simp)]
      simp only [List.length_cons, List.length_drop, Prod.mk.injEq, true_and]
      have hnn : rest.length - c = rest.length + 1 - (c + 1) := by omega
      rw [hnn]
    · -- the per-index contents
      intro j
      rw [hfget j, hres j]
      simp only [List.length_drop, List.length_take, List.length_cons]
      by_cases hj1 : i ≤ j ∧ j < i + min (c + 1) (rest.length + 1)
      · -- j lies in the first batch
        rw [if_neg (by omega), if_pos hj1, if_pos (by omega),
          List.getElem?_take]
        rw [if_pos (by omega)]
      · by_cases hj2 : i + (c + 1) ≤ j ∧ j < i + (c + 1) + (rest.length - c)
        · -- j lies in a later batch
          rw [if_pos hj2, if_pos (by omega)]
          rw [List.getElem?_drop]
          have hidx : j - i = (c + (j - (i + (c + 1)))) + 1 := by omega
          rw [hidx, List.getElem?_cons_succ]
        · -- j outside the remaining messages
          rw [if_neg hj2, if_neg hj1, if_neg (by omega)]

theorem verifyBulkGo_err_spec {M : Type} (send : M → Except SmsError SmsResponse)
    (orders : Nat → List Nat) (c : Nat) :
    ∀ (n : Nat) (msgs : List M), msgs.length = n →
      ∀ (i k : Nat) (mk : M) (e : SmsError) (results : List (Option SmsResponse)),
        msgs[k]? = some mk →
        send mk = Except.error e →
        (∀ j x, j ≠ k → msgs[j]? = some x → ∃ r, send x = Except.ok r) →
        verifyBulkGo send true orders (c + 1) i msgs results =
          (Except.error e,
            (chunkList (c + 1) (List.range' i msgs.length)).take
              (k / (c + 1) + 1)) := by
  intro n
  induction n using Nat.strong_induction_on with
  | _ n ihn =>
  intro msgs hlen i k mk e results hmk hthrow hothers
  cases msgs with
  | nil => simp at hmk
  | cons m rest =>
    have hk : k < rest.length + 1 := by
      have := (List.getElem?_eq_some.mp hmk).1
      simpa using this
    have hlaunch : (((m :: rest).take (c + 1)).enum.map fun p => i + p.1) =
        List.range' i (min (c + 1) (rest.length + 1)) := by
      have h := enumFrom_map_idx ((m :: rest).take (c + 1)) 0 i
      rw [Nat.add_zero, List.length_take, List.length_cons] at h
      exact h
    rw [verifyBulkGo_cons]
    by_cases hkb : k < c + 1
    · -- the throwing message is in this batch
      have htk : ((((m :: rest).take (c + 1)).enum.map
          fun p => bulkTask send true (i + p.1) p.2))[k]? =
          some (Except.error e) := by
        rw [List.getElem?_map, List.getElem?_enum, List.getElem?_take,
          if_pos hkb, hmk]
        simp [bulkTask, hthrow]
      have hother : ∀ j t, j ≠ k →
          ((((m :: rest).take (c + 1)).enum.map
            fun p => bulkTask send true (i + p.1) p.2))[j]? = some t →
          ∃ a, t = Except.ok a := by
        intro j t hne hjt
        rw [List.getElem?_map, List.getElem?_enum, List.getElem?_take] at hjt
        by_cases hjc : j < c + 1
        · rw [if_pos hjc] at hjt
          cases hx : (m :: rest)[j]? with
          | none => rw [hx] at hjt; simp at hjt
          | some x =>
            rw [hx] at hjt
            simp only [Option.map_some', Option.some.injEq] at hjt
            obtain ⟨r, hr⟩ := hothers j x hne hx
            refine ⟨(i + j, sendOutcome send x), ?_⟩
            rw [← hjt]
            exact bulkTask_ok send true _ _ (fun _ => ⟨r, hr⟩)
        · rw [if_neg hjc] at hjt
          simp at hjt
      rw [promiseAll_unique_error (orders i) _ k e htk hother]
      have hdiv : k / (c + 1) = 0 := Nat.div_eq_of_lt hkb
      have hlaunch2 : ((m :: List.take c rest).enum.map fun p => i + p.1) =
          List.range' i (min (c + 1) (rest.length + 1)) := by
        have h := enumFrom_map_idx (m :: List.take c rest) 0 i
        rw [Nat.add_zero] at h
        simp only [List.length_cons, List.length_take] at h
        show List.map (fun p => i + p.1)
          (List.enumFrom 0 (m :: List.take c rest)) = _
        rw [h]
        congr 1
        omega
      simp only [List.length_cons]
      rw [chunkList_range' c (rest.length + 1) i (by omega), hdiv]
      simp only [List.take_succ_cons, List.take_zero, hlaunch2, if_pos trivial]
    · -- the whole batch resolves; recurse
      have hTasks : ((m :: rest).take (c + 1)).enum.map
            (fun p => bulkTask send true (i + p.1) p.2) =
          ((m :: rest).take (c + 1)).enum.map
            (fun p => Except.ok (i + p.1, sendOutcome send p.2)) := by
        apply List.map_congr_left
        intro p hp
        obtain ⟨idx, hidx⟩ := List.mem_iff_getElem?.mp hp
        rw [List.getElem?_enum] at hidx
        cases hx : ((m :: rest).take (c + 1))[idx]? with
        | none => rw [hx] at hidx; simp at hidx
        | some x =>
          rw [hx] at hidx
          simp only [Option.map_some', Option.some.injEq] at hidx
          have hidxlt : idx < c + 1 := by
            have h1 := (List.getElem?_eq_some.mp hx).1
            simp only [List.length_take, List.length_cons] at h1
            omega
          rw [List.getElem?_take, if_pos hidxlt] at hx
          obtain ⟨r, hr⟩ := hothers idx x (by omega) hx
          rw [← hidx]
          exact bulkTask_ok send true _ _ (fun _ => ⟨r, hr⟩)
      have hallok : ∀ t ∈ ((m :: rest).take (c + 1)).enum.map
          (fun p => (Except.ok (i + p.1, sendOutcome send p.2) :
            Except SmsError (Nat × SmsResponse))), ∃ a, t = Except.ok a := by
        intro t ht
        obtain ⟨p, hp, rfl⟩ := List.mem_map.mp ht
        exact ⟨_, rfl⟩
      have hpa : promiseAll (orders i) (((m :: rest).take (c + 1)).enum.map
            fun p => bulkTask send true (i + p.1) p.2) =
          Except.ok (((m :: rest).take (c + 1)).enum.map
            fun p => (i + p.1, sendOutcome send p.2)) := by
        rw [hTasks, promiseAll_all_ok _ _ hallok,
          filterMap_toOption_map_ok (((m :: rest).take (c + 1)).enum)
            (fun p => (i + p.1, sendOutcome send p.2))]
      rw [hpa]
      have hmk2 : (rest.drop c)[k - (c + 1)]? = some mk := by
        rw [List.getElem?_drop]
        have hc1 : c + (k - (c + 1)) = k - 1 := by omega
        rw [hc1]
        have hkk : k = (k - 1) + 1 := by omega
        rw [hkk, List.getElem?_cons_succ] at hmk
        exact hmk
      have hothers2 : ∀ j x, j ≠ k - (c + 1) → (rest.drop c)[j]? = some x →
          ∃ r, send x = Except.ok r := by
        intro j x hne hjx
        rw [List.getElem?_drop] at hjx
        have hjx2 : (m :: rest)[c + 1 + j]? = some x := by
          have hcc : c + 1 + j = (c + j) + 1 := by omega
          rw [hcc, List.getElem?_cons_succ]
          exact hjx
        exact hothers (c + 1 + j) x (by omega) hjx2
      have hrec := ihn (rest.drop c).length
        (by simp only [List.length_drop, ← hlen, List.length_cons]; omega)
        (rest.drop c) rfl (i + (c + 1)) (k - (c + 1)) mk e
        ((((m :: rest).take (c + 1)).enum.map
          fun p => (i + p.1, sendOutcome send p.2)).foldl
          (fun acc q => acc.set q.1 (some q.2)) results)
        hmk2 hthrow hothers2
      simp only [hrec, hlaunch, List.length_cons, List.length_drop]
      rw [chunkList_range' c (rest.length + 1) i (by omega)]
      have hdiv : k / (c + 1) = (k - (c + 1)) / (c + 1) + 1 := by
        have h := Nat.add_div_right (k - (c + 1)) (show 0 < c + 1 by omega)
        rw [show k - (c + 1) + (c + 1) = k from by omega] at h
        exact h
      rw [hdiv, List.take_succ_cons]
      rw [show rest.length - c = rest.length + 1 - (c + 1) from by omega]

theorem retryGo_step (send : Nat → Except SmsError SmsResponse)
    (maxRetries attempt : Nat) (lastError : Option SmsError)
    (invocations : Nat) (delays : List Nat) (h : attempt ≤ maxRetries) :
    retryGo send maxRetries attempt lastError invocations delays =
      match send attempt with
      | Except.ok response => (Except.ok response, invocations + 1, delays)
      | Except.error e =>
        retryGo send maxRetries (attempt + 1) (some e) (invocations + 1)
          (if attempt < maxRetries then delays ++ [2 ^ attempt * 1000]
            else delays) := by
  rw [retryGo, if_pos h]
  cases send attempt with
  | ok r => simp [ite_self]
  | error e => rfl

theorem retryGo_stop (send : Nat → Except SmsError SmsResponse)
    (maxRetries attempt : Nat) (lastError : Option SmsError)
    (invocations : Nat) (delays : List Nat) (h : ¬ attempt ≤ maxRetries) :
    retryGo send maxRetries attempt lastError invocations delays =
      (Except.error (lastError.getD
        { message := "All retry attempts failed", code := none }),
        invocations, delays) := by
  rw [retryGo, if_neg h]

theorem retryGo_all_throw (send : Nat → Except SmsError SmsResponse)
    (maxRetries : Nat) (es : Nat → SmsError)
    (hsend : ∀ a, 1 ≤ a → a ≤ maxRetries → send a = Except.error (es a)) :
    ∀ (d attempt : Nat) (lastError : Option SmsError)
      (invocations : Nat) (delays : List Nat),
      maxRetries + 1 - attempt = d → 1 ≤ attempt → attempt ≤ maxRetries →
      retryGo send maxRetries attempt lastError invocations delays =
        (Except.error (es maxRetries),
          invocations + (maxRetries + 1 - attempt),
          delays ++ (List.range' attempt (maxRetries - attempt)).map
            fun a => 2 ^ a * 1000) := by
  intro d
  induction d with
  | zero => intro attempt lastError invocations delays hd h1 h2; omega
  | succ d ihd =>
    intro attempt lastError invocations delays hd h1 h2
    rw [retryGo_step send maxRetries attempt lastError invocations delays h2]
    simp only [hsend attempt h1 h2]
    by_cases hlast : attempt = maxRetries
    · subst hlast
      rw [if_neg (by omega),
        retryGo_stop send attempt (attempt + 1) _ _ _ (by omega)]
      simp only [Option.getD_some]
      rw [show attempt + 1 - attempt = 1 from by omega,
        show attempt - attempt = 0 from by omega]
      simp [List.range']
    · have hlt : attempt < maxRetries := by omega
      rw [if_pos hlt,
        ihd (attempt + 1) (some (es attempt)) (invocations + 1)
          (delays ++ [2 ^ attempt * 1000]) (by omega) (by omega) (by omega)]
      simp only [Prod.mk.injEq, true_and]
      constructor
      · omega
      · rw [List.append_assoc]
        congr 1
        rw [show maxRetries - attempt = (maxRetries - (attempt + 1)) + 1
          from by omega, List.range'_succ, List.map_cons]
        rfl

theorem verifyBulk_allOk_eq {M : Type} (send : M → Except SmsError SmsResponse)
    (messages : List M) (concurrency : Nat) (failFast : Bool)
    (orders : Nat → List Nat) (hc : 1 ≤ concurrency)
    (hok : ∀ m ∈ messages, failFast = true → ∃ r, send m = Except.ok r) :
    verifyBulk send messages concurrency failFast orders =
      (Except.ok (messages.map fun m => some (sendOutcome send m)),
        chunkList concurrency (List.range' 0 messages.length)) := by
  obtain ⟨c, rfl⟩ : ∃ c, concurrency = c + 1 := ⟨concurrency - 1, by omega⟩
  obtain ⟨final, hfeq, hflen, hfget⟩ := verifyBulkGo_ok_spec send failFast
    orders c messages.length messages rfl 0
    (List.replicate messages.length none) hok (Or.inr (by simp))
  unfold verifyBulk
  rw [hfeq]
  have hfin : final = messages.map fun m => some (sendOutcome send m) := by
    apply List.ext_getElem?
    intro j
    rw [hfget j, List.getElem?_map]
    by_cases hj : j < messages.length
    · rw [if_pos (by omega)]
      simp
    · rw [if_neg (by omega), List.getElem?_replicate, if_neg hj,
        List.getElem?_eq_none_iff.mpr (by omega)]
      rfl
  rw [hfin]

theorem jsOr_ne_empty (x : Option String) (y : String) (hy : y ≠ "") :
    jsOr x y ≠ "" := by
  unfold jsOr
  cases x with
  | none => exact hy
  | some s =>
    dsimp only
    split_ifs with h
    · exact hy
    · exact h

theorem getAlternativeDriver_ne_empty (env : SmsEnv) (p : Option String) :
    getAlternativeDriver env p ≠ "" := by
  unfold getAlternativeDriver
  exact jsOr_ne_empty _ _ (by decide)

theorem fallbackCandidates_eq (env : SmsEnv) (p f : Option String)
    (hp : jsOr p env.defaultDriver ≠ "") :
    fallbackCandidates env p f =
      [jsOr p env.defaultDriver, jsOr f (getAlternativeDriver env p)] := by
  have hf := jsOr_ne_empty f _ (getAlternativeDriver_ne_empty env p)
  unfold fallbackCandidates
  simp [hp, hf]

theorem fallbackGo_no_response (env : SmsEnv) :
    ∀ (l : List String) (lastResponse : Option SmsResponse)
      (attempted : List String),
      (∀ d ∈ l, env.isAvailable d = false ∨ ∃ e, env.send d = Except.error e) →
      (fallbackGo env l lastResponse attempted).1 =
        lastResponse.getD allFailedResponse := by
  intro l
  induction l with
  | nil => intro lastResponse attempted _; rfl
  | cons d rest ih =>
    intro lastResponse attempted hall
    have htail : ∀ x ∈ rest, env.isAvailable x = false ∨
        ∃ e, env.send x = Except.error e :=
      fun x hx => hall x (List.mem_cons_of_mem d hx)
    rcases hall d (List.mem_cons_self d rest) with hun | ⟨e, he⟩
    · simp only [fallbackGo, hun, if_pos rfl]
      exact ih lastResponse attempted htail
    · cases hav : env.isAvailable d with
      | false =>
        simp only [fallbackGo, hav, if_pos rfl]
        exact ih lastResponse attempted htail
      | true =>
        simp only [fallbackGo, hav, he]
        rw [if_neg (by simp)]
        exact ih lastResponse (attempted ++ [d]) htail

theorem retryGo_throws_then_ok (send : Nat → Except SmsError SmsResponse)
    (maxRetries k : Nat) (r : SmsResponse) (es : Nat → SmsError)
    (hkmax : k ≤ maxRetries) (hk : send k = Except.ok r) :
    ∀ (d attempt : Nat) (lastError : Option SmsError)
      (invocations : Nat) (delays : List Nat),
      maxRetries + 1 - attempt = d → 1 ≤ attempt → attempt ≤ k →
      (∀ a, attempt ≤ a → a < k → send a = Except.error (es a)) →
      retryGo send maxRetries attempt lastError invocations delays =
        (Except.ok r, invocations + (k - attempt + 1),
          delays ++ (List.range' attempt (k - attempt)).map
            fun a => 2 ^ a * 1000) := by
  intro d
  induction d with
  | zero => intro attempt lastError invocations delays hd h1 h2 _; omega
  | succ d ihd =>
    intro attempt lastError invocations delays hd h1 h2 hthrows
    rw [retryGo_step send maxRetries attempt lastError invocations delays
      (by omega)]
    by_cases hak : attempt = k
    · subst hak
      rw [hk]
      simp
    · have hlt : attempt < k := by omega
      simp only [hthrows attempt (by omega) hlt]
      rw [if_pos (show attempt < maxRetries by omega)]
      rw [ihd (attempt + 1) (some (es attempt)) (invocations + 1)
        (delays ++ [2 ^ attempt * 1000]) (by omega) (by omega) (by omega)
        (fun a ha1 ha2 => hthrows a (by omega) ha2)]
      simp only [Prod.mk.injEq, true_and]
      constructor
      · omega
      · rw [List.append_assoc]
        congr 1
        rw [show k - attempt = (k - (attempt + 1)) + 1 from by omega,
          List.range'_succ, List.map_cons]
        rfl

theorem fallbackGo_exhaust (env : SmsEnv) :
    ∀ (l : List String) (lastResponse : Option SmsResponse)
      (attempted : List String),
      (∀ d ∈ l, env.isAvailable d = true →
        ∀ r, env.send d = Except.ok r → r.success = false) →
      (fallbackGo env l lastResponse attempted).1 =
        (lastObtained env l lastResponse).getD allFailedResponse := by
  intro l
  induction l with
  | nil => intro lastResponse attempted _; rfl
  | cons driver rest ih =>
    intro lastResponse attempted hno
    have htail : ∀ d ∈ rest, env.isAvailable d = true →
        ∀ r, env.send d = Except.ok r → r.success = false :=
      fun d hd => hno d (List.mem_cons_of_mem driver hd)
    cases hav : env.isAvailable driver with
    | false =>
      rw [show fallbackGo env (driver :: rest) lastResponse attempted =
        fallbackGo env rest lastResponse attempted from by
          simp [fallbackGo, hav]]
      rw [show lastObtained env (driver :: rest) lastResponse =
        lastObtained env rest lastResponse from by
          simp [lastObtained, hav]]
      exact ih lastResponse attempted htail
    | true =>
      cases hsend : env.send driver with
      | ok r =>
        have hrs : r.success = false :=
          hno driver (List.mem_cons_self driver rest) hav r hsend
        rw [show fallbackGo env (driver :: rest) lastResponse attempted =
          fallbackGo env rest (some r) (attempted ++ [driver]) from by
            simp [fallbackGo, hav, hsend, hrs]]
        rw [show lastObtained env (driver :: rest) lastResponse =
          lastObtained env rest (some r) from by
            simp [lastObtained, hav, hsend]]
        exact ih (some r) (attempted ++ [driver]) htail
      | error e =>
        rw [show fallbackGo env (driver :: rest) lastResponse attempted =
          fallbackGo env rest lastResponse (attempted ++ [driver]) from by
            simp [fallbackGo, hav, hsend]]
        rw [show lastObtained env (driver :: rest) lastResponse =
          lastObtained env rest lastResponse from by
            simp [lastObtained, hav, hsend]]
        exact ih lastResponse (attempted ++ [driver]) htail

/-! ## Claim theorems -/

/-- C1: for every sequence of N message descriptors and every concurrency
C >= 1, verifyBulk with failFast = false returns a sequence of exactly N
results in which the slot at index i is the outcome of sending the input
message at index i, for any completion-order permutation of the sends within
a batch (the completion orders are the universally quantified `orders`). -/
theorem verifyBulk_ordered_results {M : Type}
    (send : M → Except SmsError SmsResponse) (messages : List M)
    (concurrency : Nat) (orders : Nat → List Nat) (hc : 1 ≤ concurrency) :
    (verifyBulk send messages concurrency false orders).1 =
      Except.ok (messages.map fun m => some (sendOutcome send m)) ∧
    (messages.map fun m => some (sendOutcome send m)).length =
      messages.length := by
  constructor
  · rw [verifyBulk_allOk_eq send messages concurrency false orders hc
      (fun m _ h => nomatch h)]
  · exact List.length_map messages _

/-- Witness for C1 at a concrete input: three messages, concurrency 2, a
nontrivial completion order, message 1 throwing. -/
theorem verifyBulk_ordered_results_witness :
    (verifyBulk sendW [5, 1, 7] 2 false fun _ => [1, 0]).1 =
      Except.ok ([5, 1, 7].map fun m => some (sendOutcome sendW m)) ∧
    ([5, 1, 7].map fun m => some (sendOutcome sendW m)).length =
      [5, 1, 7].length :=
  verifyBulk_ordered_results sendW [5, 1, 7] 2 (fun _ => [1, 0]) (by decide)

/-- C2: verifyBulk partitions the input into consecutive batches of size
`concurrency` (last batch may be smaller) — its launch trace equals the
spec-side chunking of the indices 0..N-1 — all of a batch is launched before
its await and a later batch only starts after the previous batch settled
(the per-batch grouping of the trace), and every input message is sent
exactly once.  When failFast is set this describes the runs where no send
throws; with a throw the fail-fast abort applies (claim C3). -/
theorem verifyBulk_batching {M : Type}
    (send : M → Except SmsError SmsResponse) (messages : List M)
    (concurrency : Nat) (failFast : Bool) (orders : Nat → List Nat)
    (hc : 1 ≤ concurrency)
    (hok : ∀ m ∈ messages, failFast = true → ∃ r, send m = Except.ok r) :
    (verifyBulk send messages concurrency failFast orders).2 =
      chunkList concurrency (List.range' 0 messages.length) ∧
    (verifyBulk send messages concurrency failFast orders).2.flatten =
      List.range' 0 messages.length ∧
    ∀ j, j < messages.length →
      (verifyBulk send messages concurrency failFast orders).2.flatten.count j
        = 1 := by
  have h := verifyBulk_allOk_eq send messages concurrency failFast orders hc hok
  have h2 : (verifyBulk send messages concurrency failFast orders).2 =
      chunkList concurrency (List.range' 0 messages.length) := by rw [h]
  refine ⟨h2, ?_, ?_⟩
  · rw [h2]
    exact chunkList_flatten _ _ (by omega)
  · intro j hj
    rw [h2, chunkList_flatten _ _ (by omega)]
    exact List.count_eq_one_of_mem (List.nodup_range' _ _)
      (List.mem_range'.mpr ⟨j, hj, by omega⟩)

/-- Witness for C2 at a concrete input: five messages, concurrency 2, so the
trace is [[0,1],[2,3],[4]] and indices 0..4 are each launched once. -/
theorem verifyBulk_batching_witness :
    (verifyBulk sendW [10, 20, 30, 40, 50] 2 false fun _ => []).2 =
      chunkList 2 (List.range' 0 [10, 20, 30, 40, 50].length) ∧
    (verifyBulk sendW [10, 20, 30, 40, 50] 2 false fun _ => []).2.flatten =
      List.range' 0 [10, 20, 30, 40, 50].length ∧
    (verifyBulk sendW [10, 20, 30, 40, 50] 2 false
      fun _ => []).2.flatten.count 3 = 1 := by
  have h := verifyBulk_batching sendW [10, 20, 30, 40, 50] 2 false
    (fun _ => []) (by decide) (fun m _ hff => nomatch hff)
  exact ⟨h.1, h.2.1, h.2.2 3 (by decide)⟩

/-- C3: with failFast = true, if the send capability throws for exactly one
message (index k, error e), the call rethrows that exception — the outcome is
the error, so no result array (partial or otherwise) reaches the caller —
and the launch trace is exactly the batches up to and including the one
containing index k: no later batch is started, while the rest of the
throwing batch was already launched. -/
theorem verifyBulk_failFast_propagates {M : Type}
    (send : M → Except SmsError SmsResponse) (messages : List M)
    (concurrency k : Nat) (mk : M) (e : SmsError) (orders : Nat → List Nat)
    (hc : 1 ≤ concurrency)
    (hmk : messages[k]? = some mk)
    (hthrow : send mk = Except.error e)
    (hothers : ∀ j x, j ≠ k → messages[j]? = some x →
      ∃ r, send x = Except.ok r) :
    verifyBulk send messages concurrency true orders =
      (Except.error e,
        (chunkList concurrency (List.range' 0 messages.length)).take
          (k / concurrency + 1)) := by
  obtain ⟨c, rfl⟩ : ∃ c, concurrency = c + 1 := ⟨concurrency - 1, by omega⟩
  exact verifyBulkGo_err_spec send orders c messages.length messages rfl 0 k
    mk e (List.replicate messages.length none) hmk hthrow hothers

/-- Witness for C3 at a concrete input: the throwing message sits at index 3,
concurrency 2, so batches 0 and 1 are launched and batch 2 is not. -/
theorem verifyBulk_failFast_propagates_witness :
    verifyBulk sendW [0, 2, 3, 1, 4] 2 true (fun _ => []) =
      (Except.error { message := "boom", code := some "E1" },
        (chunkList 2 (List.range' 0 [0, 2, 3, 1, 4].length)).take
          (3 / 2 + 1)) := by
  apply verifyBulk_failFast_propagates sendW [0, 2, 3, 1, 4] 2 3 1
    { message := "boom", code := some "E1" } (fun _ => []) (by decide)
    (by decide) rfl
  intro j x hne hx
  have hj5 : j < 5 := by
    by_contra hcon
    rw [List.getElem?_eq_none_iff.mpr (by simp; omega)] at hx
    exact Option.noConfusion hx
  interval_cases j <;>
    first
      | exact absurd rfl hne
      | (simp at hx
         subst hx
         exact ⟨_, rfl⟩)

/-- C4: with failFast = false, a message whose send throws error e does not
make the call throw; the call resolves with the full result list, and the
slot at that message's index holds success = false, error = e's message, and
errorCode = e's code when it carries one, "UNKNOWN_ERROR" otherwise. -/
theorem verifyBulk_captures_thrown_error {M : Type}
    (send : M → Except SmsError SmsResponse) (messages : List M)
    (concurrency k : Nat) (mk : M) (e : SmsError) (orders : Nat → List Nat)
    (hc : 1 ≤ concurrency)
    (hmk : messages[k]? = some mk)
    (hthrow : send mk = Except.error e) :
    (verifyBulk send messages concurrency false orders).1 =
      Except.ok (messages.map fun m => some (sendOutcome send m)) ∧
    (messages.map fun m => some (sendOutcome send m))[k]? =
      some (some { success := false, messageId := none,
                   error := some e.message,
                   errorCode := some (e.code.getD "UNKNOWN_ERROR") }) := by
  constructor
  · rw [verifyBulk_allOk_eq send messages concurrency false orders hc
      (fun m _ h => nomatch h)]
  · rw [List.getElem?_map, hmk]
    simp [sendOutcome, hthrow]

/-- Witness for C4 at a concrete input: message 1 at index 1 throws an
SmsException with code E1, recorded as a failed slot with that code. -/
theorem verifyBulk_captures_thrown_error_witness :
    (verifyBulk sendW [0, 1, 2] 2 false fun _ => []).1 =
      Except.ok ([0, 1, 2].map fun m => some (sendOutcome sendW m)) ∧
    ([0, 1, 2].map fun m => some (sendOutcome sendW m))[1]? =
      some (some { success := false, messageId := none,
                   error := some (SmsError.mk "boom" (some "E1")).message,
                   errorCode := some ((SmsError.mk "boom"
                     (some "E1")).code.getD "UNKNOWN_ERROR") }) :=
  verifyBulk_captures_thrown_error sendW [0, 1, 2] 2 1 1
    { message := "boom", code := some "E1" } (fun _ => []) (by decide)
    (by decide) rfl

/-- C5: a SendResult returned (not thrown) with success = false never
triggers fail-fast: when no send throws, for both failFast values the call
returns normally with every returned response recorded at its index
(including unsuccessful ones), and the trace covers every message exactly
once — no retry, no aborted batch. -/
theorem verifyBulk_rejection_not_failfast {M : Type}
    (send : M → Except SmsError SmsResponse) (messages : List M)
    (concurrency : Nat) (failFast : Bool) (orders : Nat → List Nat)
    (hc : 1 ≤ concurrency)
    (hnothrow : ∀ m ∈ messages, ∃ r, send m = Except.ok r) :
    verifyBulk send messages concurrency failFast orders =
      (Except.ok (messages.map fun m => some (sendOutcome send m)),
        chunkList concurrency (List.range' 0 messages.length)) ∧
    (∀ (j : Nat) (m : M) (r : SmsResponse), messages[j]? = some m →
      send m = Except.ok r →
      (messages.map fun m => some (sendOutcome send m))[j]? =
        some (some r)) ∧
    (verifyBulk send messages concurrency failFast orders).2.flatten =
      List.range' 0 messages.length := by
  have h := verifyBulk_allOk_eq send messages concurrency failFast orders hc
    (fun m hm _ => hnothrow m hm)
  have h2 : (verifyBulk send messages concurrency failFast orders).2 =
      chunkList concurrency (List.range' 0 messages.length) := by rw [h]
  refine ⟨h, ?_, ?_⟩
  · intro j m r hjm hok
    rw [List.getElem?_map, hjm]
    simp [sendOutcome, hok]
  · rw [h2]
    exact chunkList_flatten _ _ (by omega)

/-- Witness for C5 at a concrete input: every send returns success = false,
failFast = true, yet the call returns normally with all three rejections
recorded and all batches processed. -/
theorem verifyBulk_rejection_not_failfast_witness :
    verifyBulk sendRejectW [7, 8, 9] 2 true (fun _ => []) =
      (Except.ok ([7, 8, 9].map fun m => some (sendOutcome sendRejectW m)),
        chunkList 2 (List.range' 0 [7, 8, 9].length)) ∧
    ([7, 8, 9].map fun m => some (sendOutcome sendRejectW m))[1]? =
      some (some { success := false, error := some "rejected" }) ∧
    (verifyBulk sendRejectW [7, 8, 9] 2 true (fun _ => [])).2.flatten =
      List.range' 0 [7, 8, 9].length := by
  have h := verifyBulk_rejection_not_failfast sendRejectW [7, 8, 9] 2 true
    (fun _ => []) (by decide) (fun m _ => ⟨_, rfl⟩)
  exact ⟨h.1, h.2.1 1 8 { success := false, error := some "rejected" }
    (by decide) rfl, h.2.2⟩

/-- C6: sendOtpWithRetry returns any returned response immediately, on any
attempt: if attempts 1..k-1 throw and attempt k (1 <= k <= maxRetries)
returns a response — in particular a success = false provider rejection on
the first attempt (k = 1, one invocation, no retry, no backoff delay), and
likewise a success = true result on any attempt — the call returns that
response with exactly k invocations and backoff delays only for the
attempts before k; no further attempt is made. -/
theorem sendOtpWithRetry_no_retry_on_response
    (send : Nat → Except SmsError SmsResponse) (maxRetries k : Nat)
    (r : SmsResponse) (es : Nat → SmsError)
    (hk1 : 1 ≤ k) (hkmax : k ≤ maxRetries)
    (hthrows : ∀ a, 1 ≤ a → a < k → send a = Except.error (es a))
    (hk : send k = Except.ok r) :
    sendOtpWithRetry send maxRetries =
      (Except.ok r, k,
        (List.range' 1 (k - 1)).map fun a => 2 ^ a * 1000) := by
  unfold sendOtpWithRetry
  have h := retryGo_throws_then_ok send maxRetries k r es hkmax hk
    (maxRetries + 1 - 1) 1 none 0 [] rfl (by omega) hk1 hthrows
  rw [h]
  simp only [Nat.zero_add, List.nil_append]
  rw [show k - 1 + 1 = k from by omega]

/-- Witness for C6 at concrete inputs: a success = false rejection on the
first attempt is returned after one invocation with no delay, and a
capability that throws twice then succeeds on attempt 3 has its success
returned after three invocations and delays 2000 and 4000. -/
theorem sendOtpWithRetry_no_retry_on_response_witness :
    sendOtpWithRetry sendRejectW 3 =
      (Except.ok { success := false, error := some "rejected" }, 1,
        (List.range' 1 (1 - 1)).map fun a => 2 ^ a * 1000) ∧
    sendOtpWithRetry sendLateW 3 =
      (Except.ok { success := true, messageId := some "late" }, 3,
        (List.range' 1 (3 - 1)).map fun a => 2 ^ a * 1000) := by
  constructor
  · exact sendOtpWithRetry_no_retry_on_response sendRejectW 3 1
      { success := false, error := some "rejected" } (fun _ => errW)
      (by decide) (by decide) (fun a h1 h2 => absurd h2 (by omega)) rfl
  · exact sendOtpWithRetry_no_retry_on_response sendLateW 3 3
      { success := true, messageId := some "late" }
      (fun _ => { message := "tmp", code := none }) (by decide) (by decide)
      (by intro a h1 h3; interval_cases a <;> rfl) rfl

/-- C7: if the send capability throws on every attempt, sendOtpWithRetry
makes exactly maxRetries invocations, sleeps 2 ^ attempt * 1000 ms after
every attempt but the last (attempts numbered from 1: 2000, 4000, ...), and
throws the error recorded on the last attempt. -/
theorem sendOtpWithRetry_exhausts_attempts
    (send : Nat → Except SmsError SmsResponse) (maxRetries : Nat)
    (es : Nat → SmsError) (hmax : 1 ≤ maxRetries)
    (hsend : ∀ a, 1 ≤ a → a ≤ maxRetries → send a = Except.error (es a)) :
    sendOtpWithRetry send maxRetries =
      (Except.error (es maxRetries), maxRetries,
        (List.range' 1 (maxRetries - 1)).map fun a => 2 ^ a * 1000) := by
  unfold sendOtpWithRetry
  have h := retryGo_all_throw send maxRetries es hsend (maxRetries + 1 - 1) 1
    none 0 [] rfl (by omega) hmax
  rw [h]
  simp only [Nat.add_sub_cancel, Nat.zero_add, List.nil_append]

/-- Witness for C7 at a concrete input: every attempt throws errW;
maxRetries = 3 gives three invocations, delays [2000, 4000], and errW
rethrown. -/
theorem sendOtpWithRetry_exhausts_attempts_witness :
    sendOtpWithRetry sendThrowW 3 =
      (Except.error errW, 3, (List.range' 1 (3 - 1)).map fun a => 2 ^ a * 1000) :=
  sendOtpWithRetry_exhausts_attempts sendThrowW 3 (fun _ => errW) (by decide)
    (fun a _ _ => rfl)

/-- C9: when sendWithFallback exhausts its candidates without a
success = true response it never throws (by its type it always returns a
response).  In general, whenever no candidate yields a success, the
returned response is the last success = false response actually obtained
walking the candidates in order — unavailable and throwing candidates, in
any mixed pattern and position, leave the remembered response unchanged —
and the synthetic response with error "All drivers failed or unavailable"
is returned exactly when no response was obtained at all.  In particular,
two candidates both returning success = false give back the second one, and
every candidate unavailable or throwing gives the synthetic response. -/
theorem sendWithFallback_exhaustion :
    (∀ (env : SmsEnv) (p f : Option String),
      (∀ d ∈ fallbackCandidates env p f, env.isAvailable d = true →
        ∀ r, env.send d = Except.ok r → r.success = false) →
      (sendWithFallback env p f).1 =
        (lastObtained env (fallbackCandidates env p f) none).getD
          allFailedResponse) ∧
    (∀ (env : SmsEnv) (p f : Option String) (r1 r2 : SmsResponse),
      jsOr p env.defaultDriver ≠ "" →
      env.isAvailable (jsOr p env.defaultDriver) = true →
      env.isAvailable (jsOr f (getAlternativeDriver env p)) = true →
      env.send (jsOr p env.defaultDriver) = Except.ok r1 →
      env.send (jsOr f (getAlternativeDriver env p)) = Except.ok r2 →
      r1.success = false → r2.success = false →
      sendWithFallback env p f =
        (r2, [jsOr p env.defaultDriver,
          jsOr f (getAlternativeDriver env p)])) ∧
    (∀ (env : SmsEnv) (p f : Option String),
      jsOr p env.defaultDriver ≠ "" →
      (env.isAvailable (jsOr p env.defaultDriver) = false ∨
        ∃ e, env.send (jsOr p env.defaultDriver) = Except.error e) →
      (env.isAvailable (jsOr f (getAlternativeDriver env p)) = false ∨
        ∃ e, env.send (jsOr f (getAlternativeDriver env p)) =
          Except.error e) →
      (sendWithFallback env p f).1 = allFailedResponse) := by
  refine ⟨?_, ?_, ?_⟩
  · intro env p f hno
    unfold sendWithFallback
    exact fallbackGo_exhaust env (fallbackCandidates env p f) none [] hno
  · intro env p f r1 r2 hp h1 h2 hs1 hs2 hb1 hb2
    unfold sendWithFallback
    rw [fallbackCandidates_eq env p f hp]
    simp [fallbackGo, h1, h2, hs1, hs2, hb1, hb2]
  · intro env p f hp hc1 hc2
    unfold sendWithFallback
    rw [fallbackCandidates_eq env p f hp]
    rw [fallbackGo_no_response env _ none [] ?_]
    · rfl
    · intro d hd
      simp only [List.mem_cons, List.mem_singleton] at hd
      rcases hd with rfl | rfl | h
      · exact hc1
      · exact hc2
      · exact absurd h (List.not_mem_nil d)

/-- Witness for C9 at concrete inputs: a mixed pattern — available rejecting
first candidate followed by an available throwing one — returns the first
candidate's rejection; both candidates available and rejecting gives the
second rejection back; an environment with no available driver gives the
synthetic response. -/
theorem sendWithFallback_exhaustion_witness :
    (sendWithFallback envMixW none (some "smsir")).1 =
      { success := false, error := some "declined" } ∧
    sendWithFallback envFailW none (some "smsir") =
      ({ success := false, error := some ("no " ++ "smsir") },
        [jsOr none envFailW.defaultDriver,
          jsOr (some "smsir") (getAlternativeDriver envFailW none)]) ∧
    (sendWithFallback envDownW none none).1 = allFailedResponse := by
  refine ⟨?_, ?_, ?_⟩
  · have hno : ∀ d ∈ fallbackCandidates envMixW none (some "smsir"),
        envMixW.isAvailable d = true →
        ∀ r, envMixW.send d = Except.ok r → r.success = false := by
      intro d hd _ r hr
      rw [show fallbackCandidates envMixW none (some "smsir") =
        ["kavenegar", "smsir"] from by decide] at hd
      simp only [List.mem_cons, List.not_mem_nil, or_false] at hd
      rcases hd with rfl | rfl
      · have h2 : envMixW.send "kavenegar" =
            Except.ok { success := false, error := some "declined" } := rfl
        rw [h2] at hr
        injection hr with h3
        exact h3 ▸ rfl
      · have h2 : envMixW.send "smsir" =
            Except.error { message := "timeout", code := none } := rfl
        rw [h2] at hr
        exact Except.noConfusion hr
    exact (sendWithFallback_exhaustion.1 envMixW none (some "smsir")
      hno).trans (by decide)
  · exact sendWithFallback_exhaustion.2.1 envFailW none (some "smsir")
      { success := false, error := some ("no " ++ "kavenegar") }
      { success := false, error := some ("no " ++ "smsir") }
      (by decide) (by decide) (by decide) rfl rfl rfl rfl
  · exact sendWithFallback_exhaustion.2.2 envDownW none none (by decide)
      (Or.inl (by decide)) (Or.inl (by decide))

/-- C10: the candidate list of sendWithFallback always has exactly two
entries — first the primary driver or the configured default, second the
fallback driver or the computed alternative — the second entry defaulting to
the mock driver identifier when no available driver other than the primary
exists, and the list is not de-duplicated when the two entries name the same
driver (the equality below keeps both entries whatever their values). -/
theorem fallbackCandidates_always_two :
    (∀ (env : SmsEnv) (p f : Option String),
      jsOr p env.defaultDriver ≠ "" →
      fallbackCandidates env p f =
        [jsOr p env.defaultDriver,
          jsOr f (getAlternativeDriver env p)] ∧
      (fallbackCandidates env p f).length = 2) ∧
    (∀ (env : SmsEnv) (p : Option String),
      env.availableDrivers.filter (fun d => decide (some d ≠ p)) = [] →
      getAlternativeDriver env p = "mock") ∧
    (∀ (env : SmsEnv) (p : Option String),
      jsOr p env.defaultDriver ≠ "" →
      env.availableDrivers.filter (fun d => decide (some d ≠ p)) = [] →
      fallbackCandidates env p none = [jsOr p env.defaultDriver, "mock"]) := by
  have halt : ∀ (env : SmsEnv) (p : Option String),
      env.availableDrivers.filter (fun d => decide (some d ≠ p)) = [] →
      getAlternativeDriver env p = "mock" := by
    intro env p hfil
    show jsOr ((env.availableDrivers.filter
      fun d => decide (some d ≠ p)).head?) "mock" = "mock"
    rw [hfil]
    rfl
  refine ⟨?_, halt, ?_⟩
  · intro env p f hp
    have h := fallbackCandidates_eq env p f hp
    exact ⟨h, by simp [h]⟩
  · intro env p hp hfil
    rw [fallbackCandidates_eq env p none hp, halt env p hfil]
    rfl

/-- Witness for C10 at a concrete input: no driver is available, so with the
primary given explicitly and no fallback the candidate list is the primary
followed by "mock"; with primary and fallback both defaulted the list still
has two entries. -/
theorem fallbackCandidates_always_two_witness :
    (fallbackCandidates envDownW (some "kavenegar") none =
        [jsOr (some "kavenegar") envDownW.defaultDriver,
          jsOr none (getAlternativeDriver envDownW (some "kavenegar"))] ∧
      (fallbackCandidates envDownW (some "kavenegar") none).length = 2) ∧
    fallbackCandidates envDownW (some "kavenegar") none =
      [jsOr (some "kavenegar") envDownW.defaultDriver, "mock"] :=
  ⟨fallbackCandidates_always_two.1 envDownW (some "kavenegar") none
      (by decide),
    fallbackCandidates_always_two.2.2 envDownW (some "kavenegar")
      (by decide) (by decide)⟩
